import Mathlib

/-!
Verification development for the hacker-scoper classification-and-matching
engine (Go).  The definitions below are a shallow embedding of the functions
in the repository's main source file: `parseScopes`, `isOutOfScope`,
`isInscope`, `isInscopeIP`, `removePortFromHost`, `parseLine`,
`parseNmapIPRange`, `parseNmapOctet`, `isNmapIPRange`, `isAndroidPackageName`
and `getCompanyScopes`.  Go machine integers (`uint8`) are modelled as `Nat`
with explicit bounds; Go byte strings are modelled as `String`/`List Char`
(all inputs of interest are ASCII, where Go's byte indexing and Lean's
character indexing coincide); fallible code returns an explicit result type.
-/

namespace HackerScoper

/-- Result of running a piece of Go code that can also fail with an `error`,
or fail to terminate at all.  `hang` records provable non-termination (used
for the `uint8` counting loop in `parseNmapOctet`, which never exits when its
upper bound is 255). -/
inductive GoResult (α : Type) where
  | ok (val : α)
  | err
  | hang
deriving DecidableEq, Repr

/-! ## String helpers (models of the Go `strings` functions used) -/

/-- Model of `strings.HasSuffix s suf` (byte-wise suffix test; identical to
character-wise for ASCII). -/
def goHasSuffix (s suf : String) : Bool :=
  suf.toList.isSuffixOf s.toList

/-- Model of `strings.HasPrefix s pre` (byte-wise test). -/
def goHasStart (s pre : String) : Bool :=
  pre.toList.isPrefixOf s.toList

/-- Model of `strings.Split s sep` for a one-character separator `c`:
splits at every occurrence of `c`; the empty string yields `[""]`. -/
def splitOnChar (c : Char) : List Char → List (List Char)
  | [] => [[]]
  | x :: xs =>
    let r := splitOnChar c xs
    if x = c then [] :: r
    else
      match r with
      | [] => [[x]]
      | y :: ys => (x :: y) :: ys

/-- Model of `strings.SplitN seg sep 2` for a one-character separator, in the
case where the separator occurs: returns the part before the first occurrence
and everything after it. -/
def splitFirst (c : Char) : List Char → Option (List Char × List Char)
  | [] => none
  | x :: xs =>
    if x = c then some ([], xs)
    else
      match splitFirst c xs with
      | none => none
      | some (a, b) => some (x :: a, b)

/-- Model of `strings.TrimSpace` (the inputs of interest are ASCII, where
Go's `unicode.IsSpace` and `Char.isWhitespace` agree). -/
def goTrimSpace (cs : List Char) : List Char :=
  ((cs.dropWhile Char.isWhitespace).reverse.dropWhile Char.isWhitespace).reverse

/-- Model of `strconv.Atoi`: an optional sign followed by at least one
decimal digit.  Go's `Atoi` additionally fails on 64-bit overflow; since
every caller in the source rejects any value outside `0..255` anyway, parsing
into an unbounded `Int` yields the same accept/reject behaviour. -/
def goAtoi (s : String) : Option Int :=
  match s.toList with
  | [] => none
  | c :: rest =>
    let (neg, digits) :=
      if c = '-' then (true, rest)
      else if c = '+' then (false, rest)
      else (false, c :: rest)
    if digits.isEmpty then none
    else if digits.all Char.isDigit then
      let n : Nat := digits.foldl (fun acc d => acc * 10 + (d.toNat - 48)) 0
      some (if neg then -(n : Int) else (n : Int))
    else none

/-! ## IP addresses (models of the `net` package values used)

A `net.IP` is a byte slice of length 4 (IPv4) or 16 (IPv6); we model it as a
`List Nat` of byte values. -/

/-- The 12-byte prefix `v4InV6Prefix` that marks an IPv4-mapped IPv6
address (`::ffff:a.b.c.d`). -/
def v4InV6Prefix : List Nat := [0, 0, 0, 0, 0, 0, 0, 0, 0, 0, 255, 255]

/-- Model of `net.IP.To4`: the 4-byte form of the address when it is IPv4 or
IPv4-mapped IPv6, otherwise `none`. -/
def ipTo4 (ip : List Nat) : Option (List Nat) :=
  if ip.length = 4 then some ip
  else if ip.length = 16 ∧ ip.take 12 = v4InV6Prefix then some (ip.drop 12)
  else none

/-- Model of `net.IP.Equal`: byte-wise equality after putting an IPv4 /
IPv4-mapped pair into the same representation. -/
def ipEqual (ip x : List Nat) : Bool :=
  if ip.length = x.length then ip == x
  else if ip.length = 4 ∧ x.length = 16 then
    (x.take 12 == v4InV6Prefix) && (ip == x.drop 12)
  else if ip.length = 16 ∧ x.length = 4 then
    (ip.take 12 == v4InV6Prefix) && (x == ip.drop 12)
  else false

/-- Model of the `networkNumberAndMask` normalisation inside
`net.IPNet.Contains`: the network address is reduced to 4 bytes when it is an
IPv4 address, and a 16-byte mask is cut down to its last 4 bytes in that
case.  `none` models Go's `nil, nil` return for malformed networks. -/
def networkNumberAndMask (base mask : List Nat) :
    Option (List Nat × List Nat) :=
  let nn := match ipTo4 base with
    | some x => x
    | none => base
  if (ipTo4 base).isNone ∧ base.length ≠ 16 then none
  else if mask.length = 4 then
    if nn.length ≠ 4 then none else some (nn, mask)
  else if mask.length = 16 then
    if nn.length = 4 then some (nn, mask.drop 12) else some (nn, mask)
  else none

/-- Model of `net.IPNet.Contains` for a network with address `base` and mask
`mask`: the target is reduced to 4 bytes when possible, lengths must agree,
and all bytes must agree under the mask. -/
def ipnetContains (base mask tgt : List Nat) : Bool :=
  let ip := match ipTo4 tgt with
    | some x => x
    | none => tgt
  match networkNumberAndMask base mask with
  | none => ip.length == 0
  | some (nn, m) =>
    if ip.length ≠ nn.length then false
    else (List.range ip.length).all fun i =>
      (nn.getD i 0) &&& (m.getD i 0) == (ip.getD i 0) &&& (m.getD i 0)

/-! ## Wildcard patterns

`parseLine` turns a rule containing `*` into a Go regular expression by
escaping every `.` and replacing every `*` with `.*`, and matching is
`regexp.MatchString`, i.e. an unanchored search.  For rule texts whose
characters other than `*` carry no regular-expression meaning (the hostname
alphabet: letters, digits, `.`, `-`, `_`), the compiled pattern is exactly a
sequence of literal characters and "match any sequence" gaps; we model that
compiled pattern as a token list. -/

inductive WTok where
  | lit (c : Char)
  | star
deriving DecidableEq, Repr

/-- The compiled form of a wildcard rule: `*` becomes a match-any-sequence
token, every other character a literal (the `.`-escaping performed by the
source makes `.` literal). -/
def compileWildcard (line : String) : List WTok :=
  line.toList.map fun c => if c = '*' then WTok.star else WTok.lit c

/-- Characters for which the wildcard-to-regex translation in the source is
exactly "literal": anything except a regular-expression metacharacter.  `.`
is escaped by the source and `*` is the wildcard itself, so both are fine. -/
def wildcardSafeChar (c : Char) : Bool :=
  !([ '\\', '+', '?', '(', ')', '[', ']', '|', '^', '$', '\x7b', '\x7d' ].contains c)

/-- A rule text whose compiled regex we model exactly. -/
def wildcardSafe (line : String) : Bool :=
  line.toList.all wildcardSafeChar

/-- A `star` ("match any sequence") token lets the rest of the pattern start
at any suffix of the string: `globStar next s` succeeds when `next` succeeds
on some suffix of `s` (including `s` itself and the empty suffix). -/
def globStar (next : List Char → Bool) : List Char → Bool
  | [] => next []
  | x :: xs => next (x :: xs) || globStar next xs

/-- Can the token pattern match some prefix of `s`?  (A literal consumes one
equal character; `star` may absorb any number of characters.) -/
def globHere : List WTok → List Char → Bool
  | [] => fun _ => true
  | WTok.lit c :: ps => fun s =>
    match s with
    | [] => false
    | x :: xs => c = x && globHere ps xs
  | WTok.star :: ps => globStar (globHere ps)

/-- Unanchored search, as performed by `regexp.MatchString`: the pattern may
match a substring starting at any position of `s`. -/
def globSearch (pat : List WTok) : List Char → Bool
  | [] => globHere pat []
  | x :: tail => globHere pat (x :: tail) || globSearch pat tail

/-! ## URLs (model of the `net/url` values used)

Only the fields the engine reads are modelled: `Scheme`, `Opaque`, `Host`
(which still carries any `:port`), and `Path`.  `User`, `RawQuery` and
`Fragment` never occur in the engine's data flow (rule lines and target lines
are single tokens) and are omitted. -/

structure GoURL where
  scheme : String
  opq : String
  host : String
  path : String
deriving DecidableEq, Repr

/-- Model of `url.URL.Port()` (via `splitHostPort`): the digits after the
last `:` of the host, or `""` when the host has no colon or the characters
after the last colon are not all digits. -/
def urlPort (host : String) : String :=
  let cs := host.toList
  match cs.reverse.findIdx? (· = ':') with
  | none => ""
  | some j =>
    let rest := cs.drop (cs.length - j)
    if rest.all Char.isDigit then String.mk rest else ""

/-- Model of `removePortFromHost` in the source: when `Port()` is nonempty,
drop the port and the `:` from the end of `Host`, else return `Host`. -/
def removePortFromHost (u : GoURL) : String :=
  let port := urlPort u.host
  if port.length ≠ 0 then
    String.mk (u.host.toList.take (u.host.toList.length - port.length - 1))
  else u.host

/-- Model of `url.URL.String()` for the URL shapes the engine produces
(hierarchical URLs without user-info, query or fragment, with a path that is
empty or begins with `/`): `scheme:`, then the opaque part if any, else
`//host` followed by the path. -/
def urlString (u : GoURL) : String :=
  (if u.scheme ≠ "" then u.scheme ++ ":" else "") ++
    (if u.opq ≠ "" then u.opq
     else
       (if u.scheme ≠ "" ∨ u.host ≠ "" then
         (if u.host ≠ "" ∨ u.path ≠ "" then "//" else "") ++ u.host
        else "") ++ u.path)

/-! ## The dynamic values stored in the `[]interface{}` rule and target sets

The source keeps every classified rule and target as an `interface{}` and
dispatches on its dynamic type; `GoValue` is that closed sum.  A compiled
`regexp.Regexp` is modelled extensionally by its `MatchString` function. -/

inductive GoValue where
  /-- `*net.IP` -/
  | ip (bytes : List Nat)
  /-- `*net.IPNet` -/
  | ipnet (base mask : List Nat)
  /-- `*NmapIPRange` (the four per-position allowed-value lists) -/
  | nmap (octets : List (List Nat))
  /-- `string` (the port-stripped host of a URL-shaped rule) -/
  | hoststr (host : String)
  /-- `*WildcardScope` (compiled wildcard pattern) -/
  | wildcard (pat : List WTok)
  /-- `*regexp.Regexp` (a user-supplied `^...$` rule), as its
  `MatchString` function -/
  | regex (m : String → Bool)
  /-- `*url.URL` -/
  | url (u : GoURL)
  /-- `*URLWithIPAddressHost` -/
  | urlWithIPHost (raw : String) (iphost : List Nat)

/-! ## The scope matcher: `isInscope`, `isInscopeIP`, `isOutOfScope`,
`parseScopes` -/

/-- One iteration of the `--explicit-level=3` loop body of `isInscopeIP`:
only `*net.IP` scopes participate. -/
def ipScopeMatch3 (tgt : List Nat) : GoValue → Bool
  | GoValue.ip a => ipEqual a tgt
  | _ => false

/-- The inner per-octet check of the `*NmapIPRange` case of `isInscopeIP`:
each of the four positions of the 4-byte target must occur in the
corresponding allowed-value list. -/
def nmapOctetsMatch (o : List (List Nat)) (ip4 : List Nat) : Bool :=
  (List.range 4).all fun i => (o.getD i []).any fun v => ip4.getD i 0 = v

/-- One iteration of the `--explicit-level=1/2` loop body of `isInscopeIP`:
`*net.IPNet`, `*net.IP` and `*NmapIPRange` scopes participate; an
`*NmapIPRange` is skipped (`continue`) when the target has no 4-byte form. -/
def ipScopeMatchLow (tgt : List Nat) : GoValue → Bool
  | GoValue.ipnet b m => ipnetContains b m tgt
  | GoValue.ip a => ipEqual a tgt
  | GoValue.nmap o =>
    match ipTo4 tgt with
    | none => false
    | some ip4 => nmapOctetsMatch o ip4
  | _ => false

/-- Model of `isInscopeIP`: with early return on the first match, the two
loops are exactly `List.any` of the per-scope bodies. -/
def isInscopeIP (tgt : List Nat) (scopes : List GoValue) (level : Nat) : Bool :=
  if level = 3 then scopes.any (ipScopeMatch3 tgt)
  else scopes.any (ipScopeMatchLow tgt)

/-- One iteration of the URL-target loop body of `isInscope`: a `string`
scope is compared (suffix at level 1, equality at level 2 or 3; any other
level leaves `result` false), a `*WildcardScope` participates only when the
level is not 3 and searches the port-stripped host, a `*regexp.Regexp`
matches the rendered URL text at every level; every other scope type falls
through with no match. -/
def urlScopeMatch (u : GoURL) (level : Nat) : GoValue → Bool
  | GoValue.hoststr s =>
    if level = 1 then goHasSuffix (removePortFromHost u) s
    else if level = 2 ∨ level = 3 then removePortFromHost u == s
    else false
  | GoValue.wildcard pat =>
    if level ≠ 3 then globSearch pat (removePortFromHost u).toList else false
  | GoValue.regex m => m (urlString u)
  | _ => false

/-- Model of `isInscope`: dispatch on the dynamic type of the target; IP
targets and URL-with-IP-host targets go to `isInscopeIP`, URL targets run
the scope loop, and any other dynamic type matches nothing. -/
def isInscope (scopes : List GoValue) (target : GoValue) (level : Nat) : Bool :=
  match target with
  | GoValue.ip b => isInscopeIP b scopes level
  | GoValue.urlWithIPHost _ iph => isInscopeIP iph scopes level
  | GoValue.url u => scopes.any (urlScopeMatch u level)
  | _ => false

/-- Model of `isOutOfScope`: the same matcher run against the out-of-scope
set and its own level. -/
def isOutOfScope (noscopes : List GoValue) (target : GoValue) (level : Nat) : Bool :=
  isInscope noscopes target level

/-- Model of `parseScopes`: returns `(isInsideScope, isUnsure)`. -/
def parseScopes (inscopes noscopes : List GoValue) (target : GoValue)
    (inLevel noLevel : Nat) (includeUnsure : Bool) : Bool × Bool :=
  if isOutOfScope noscopes target noLevel then (false, false)
  else if isInscope inscopes target inLevel then (true, false)
  else if includeUnsure then (true, true)
  else (false, false)

/-! ## The octet-range (Nmap-style) parser: `isNmapIPRange`,
`parseNmapOctet`, `parseNmapIPRange` -/

/-- Model of `isNmapIPRange`: the quick heuristic — exactly three `.` and at
least one `-` or `,`. -/
def isNmapIPRange (line : String) : Bool :=
  (line.toList.countP (· = '.') == 3) &&
    line.toList.any (fun c => c = '-' ∨ c = ',')

/-- The counting loop `for v := low; v <= high; v++` of `parseNmapOctet`,
where `v`, `low` and `high` are Go `uint8` values.  When `high = 255` the
condition `v <= high` holds for every `uint8` value (after `v = 255` the
increment wraps to `0`), so the loop never exits; that outcome is recorded as
`GoResult.hang`.  Otherwise the loop collects `low, low+1, ..., high`. -/
def octetLoop (low high : Nat) : GoResult (List Nat) :=
  if high = 255 then GoResult.hang
  else GoResult.ok (List.range' low (high + 1 - low))

/-- One comma-separated segment of an octet part: trims, rewrites a lone `-`
to `0-255`, then either parses a bounded range (each bound optional, default
`0` / `255`, each bound an integer in `0..255`, `low ≤ high` required) and
runs the counting loop, or parses a single integer in `0..255`. -/
def parseNmapSeg (seg0 : List Char) : GoResult (List Nat) :=
  let seg1 := goTrimSpace seg0
  let seg := if seg1 = [ '-' ] then String.toList "0-255" else seg1
  if seg.contains '-' then
    match splitFirst '-' seg with
    | none => GoResult.err
    | some (b0, b1) =>
      let lowR : GoResult Nat :=
        if b0.isEmpty then GoResult.ok 0
        else
          match goAtoi (String.mk b0) with
          | none => GoResult.err
          | some l => if l < 0 ∨ l > 255 then GoResult.err else GoResult.ok l.toNat
      match lowR with
      | GoResult.err => GoResult.err
      | GoResult.hang => GoResult.hang
      | GoResult.ok low =>
        let highR : GoResult Nat :=
          if b1.isEmpty then GoResult.ok 255
          else
            match goAtoi (String.mk b1) with
            | none => GoResult.err
            | some h => if h < 0 ∨ h > 255 then GoResult.err else GoResult.ok h.toNat
        match highR with
        | GoResult.err => GoResult.err
        | GoResult.hang => GoResult.hang
        | GoResult.ok high =>
          if low > high then GoResult.err
          else octetLoop low high
  else
    match goAtoi (String.mk seg) with
    | none => GoResult.err
    | some v => if v < 0 ∨ v > 255 then GoResult.err else GoResult.ok [v.toNat]

/-- The segment loop of `parseNmapOctet`: segments are processed left to
right, appending to `vals`; an error or a hang in one segment stops the
whole parse there. -/
def parseNmapSegs : List (List Char) → List Nat → GoResult (List Nat)
  | [], acc => GoResult.ok acc
  | seg :: rest, acc =>
    match parseNmapSeg seg with
    | GoResult.err => GoResult.err
    | GoResult.hang => GoResult.hang
    | GoResult.ok vs => parseNmapSegs rest (acc ++ vs)

/-- Model of `parseNmapOctet`: split one dot-part on `,` and process each
segment. -/
def parseNmapOctet (part : List Char) : GoResult (List Nat) :=
  parseNmapSegs (splitOnChar ',' part) []

/-- The part loop of `parseNmapIPRange`. -/
def parseNmapParts : List (List Char) → List (List Nat) → GoResult (List (List Nat))
  | [], acc => GoResult.ok acc
  | part :: rest, acc =>
    match parseNmapOctet part with
    | GoResult.err => GoResult.err
    | GoResult.hang => GoResult.hang
    | GoResult.ok vs => parseNmapParts rest (acc ++ [vs])

/-- Model of `parseNmapIPRange`: split on `.`, require exactly 4 parts,
parse each part into its allowed-value list. -/
def parseNmapIPRange (line : String) : GoResult (List (List Nat)) :=
  let parts := splitOnChar '.' line.toList
  if parts.length ≠ 4 then GoResult.err
  else parseNmapParts parts []

/-! ## The line classifier: `parseLine`

The classifier calls four Go standard-library collaborators whose internals
are outside this repository: `regexp.Compile`, `url.Parse`, `net.ParseCIDR`
and `net.ParseIP`.  They are passed in as explicit functions (a compiled
regex is represented by its `MatchString` function; a parse failure by
`none`); every theorem below quantifies over them or instantiates them with
the documented behaviour of the library on the concrete strings involved. -/

structure StdlibOracles where
  /-- `regexp.Compile`, returning the compiled pattern's `MatchString`. -/
  regexpCompile : String → Option (String → Bool)
  /-- `url.Parse` (`none` models a non-nil error). -/
  urlParse : String → Option GoURL
  /-- `net.ParseCIDR`, returning the masked network address and the mask. -/
  parseCIDR : String → Option (List Nat × List Nat)
  /-- `net.ParseIP`. -/
  parseIP : String → Option (List Nat)

/-- The wildcard-to-regex text rewrite in `parseLine`: every `.` becomes
`\.` and every `*` becomes `.*`. -/
def wildcardRegexText (line : String) : String :=
  String.mk (line.toList.flatMap fun c =>
    if c = '.' then [ '\\', '.' ]
    else if c = '*' then [ '.', '*' ]
    else [c])

/-- The success condition of one `url.Parse` attempt in `parseLine`:
`parseAsURLFailed := err != nil || parsedURL.Host == "" || parsedURL.Opaque != ""`. -/
def urlParseFailed : Option GoURL → Bool
  | none => true
  | some u => u.host == "" || u.opq != ""

/-- The final step of the shared URL branch of `parseLine`, applied to the
successfully parsed URL: a target becomes `*URLWithIPAddressHost` when its
port-stripped host parses as an IP, else `*url.URL`; a rule must have an
empty or `/` path and becomes its port-stripped host string, else the line
is a classification error. -/
def parseLineFinish (lib : StdlibOracles) (line : String) (isScope : Bool)
    (u : GoURL) : GoResult GoValue :=
  if !isScope then
    match lib.parseIP (removePortFromHost u) with
    | some ipb => GoResult.ok (GoValue.urlWithIPHost line ipb)
    | none => GoResult.ok (GoValue.url u)
  else
    if u.path = "" ∨ u.path = "/" then
      GoResult.ok (GoValue.hoststr (removePortFromHost u))
    else GoResult.err

/-- The URL tail of `parseLine` shared by rules and targets: one `url.Parse`
attempt, and on failure — unless the line already starts with `https://` —
a retry with the `https://` prefix under the same success condition. -/
def parseLineURLTail (lib : StdlibOracles) (line : String) (isScope : Bool) :
    GoResult GoValue :=
  if urlParseFailed (lib.urlParse line) then
    if goHasStart line "https://" then GoResult.err
    else
      if urlParseFailed (lib.urlParse ("https://" ++ line)) then GoResult.err
      else
        match lib.urlParse ("https://" ++ line) with
        | some u => parseLineFinish lib line isScope u
        | none => GoResult.err
  else
    match lib.urlParse line with
    | some u => parseLineFinish lib line isScope u
    | none => GoResult.err

/-- The branches of `parseLine` shared by rules and targets: plain IP first,
then the URL tail. -/
def parseLineShared (lib : StdlibOracles) (line : String) (isScope : Bool) :
    GoResult GoValue :=
  match lib.parseIP line with
  | some ipb => GoResult.ok (GoValue.ip ipb)
  | none => parseLineURLTail lib line isScope

/-- Model of `parseLine`.  For a rule (`isScope = true`) the branches are
tried in order: anchored regex, wildcard, octet range (behind the
`isNmapIPRange` heuristic), CIDR; rules and targets then share the plain-IP
and URL branches. -/
def parseLine (lib : StdlibOracles) (line : String) (isScope : Bool) :
    GoResult GoValue :=
  if isScope then
    if goHasStart line "^" && goHasSuffix line "$" then
      match lib.regexpCompile line with
      | none => GoResult.err
      | some m => GoResult.ok (GoValue.regex m)
    else if line.toList.contains '*' then
      match lib.regexpCompile (wildcardRegexText line) with
      | none => GoResult.err
      | some _ => GoResult.ok (GoValue.wildcard (compileWildcard line))
    else if isNmapIPRange line then
      match parseNmapIPRange line with
      | GoResult.err => GoResult.err
      | GoResult.hang => GoResult.hang
      | GoResult.ok o => GoResult.ok (GoValue.nmap o)
    else
      match lib.parseCIDR line with
      | some (b, m) => GoResult.ok (GoValue.ipnet b m)
      | none => parseLineShared lib line isScope
  else parseLineShared lib line isScope

/-! ## The misconfiguration detector: `isAndroidPackageName`,
`getCompanyScopes` -/

/-- Model of `isAndroidPackageName`.  `psl` models
`publicsuffix.PublicSuffix`, returning the `icann` flag (whether the
effective TLD is publicly registered).  When `privateTLDs` is set the
function returns its value (`true`) immediately; otherwise the raw scope is
parsed as a rule and the TLD check runs only when the parse produced a
`*url.URL` value. -/
def isAndroidPackageName (lib : StdlibOracles) (psl : String → Bool)
    (rawScope : String) (privateTLDs : Bool) : GoResult Bool :=
  if privateTLDs then GoResult.ok privateTLDs
  else
    match parseLine lib rawScope true with
    | GoResult.hang => GoResult.hang
    | GoResult.err => GoResult.ok false
    | GoResult.ok v =>
      match v with
      | GoValue.url u =>
        let portless := removePortFromHost u
        if ¬ psl portless ∧ u.host ≠ "" then GoResult.ok true
        else GoResult.ok false
      | _ => GoResult.ok false

/-- One scope entry of the external (firebounty) database: the raw rule text
and its resource-kind tag. -/
structure FireScope where
  scope : String
  scopeType : String
deriving DecidableEq, Repr

/-- The filtering loop of `getCompanyScopes` over one scope list: an entry
is kept when its kind tag is `web_application`, its text is nonempty, and
`isAndroidPackageName` does not flag it. -/
def filterCompanyScopes (lib : StdlibOracles) (psl : String → Bool)
    (privateTLDs : Bool) : List FireScope → List String → GoResult (List String)
  | [], acc => GoResult.ok acc
  | s :: rest, acc =>
    if s.scopeType = "web_application" ∧ s.scope ≠ "" then
      match isAndroidPackageName lib psl s.scope privateTLDs with
      | GoResult.hang => GoResult.hang
      | GoResult.err => GoResult.err
      | GoResult.ok flagged =>
        filterCompanyScopes lib psl privateTLDs rest
          (if flagged then acc else acc ++ [s.scope])
    else filterCompanyScopes lib psl privateTLDs rest acc

/-- Model of `getCompanyScopes` (the rule-collection part): filter the
in-scope entries, fail when none survive, then filter the out-of-scope
entries. -/
def getCompanyScopes (lib : StdlibOracles) (psl : String → Bool)
    (inScopes outScopes : List FireScope) (privateTLDs : Bool) :
    GoResult (List String × List String) :=
  match filterCompanyScopes lib psl privateTLDs inScopes [] with
  | GoResult.hang => GoResult.hang
  | GoResult.err => GoResult.err
  | GoResult.ok ins =>
    if ins.isEmpty then GoResult.err
    else
      match filterCompanyScopes lib psl privateTLDs outScopes [] with
      | GoResult.hang => GoResult.hang
      | GoResult.err => GoResult.err
      | GoResult.ok outs => GoResult.ok (ins, outs)

/-! ## Theorems -/

/-- A `List.any` fold (the early-exit rule loops of the matcher) is
invariant under permutation of the list. -/
theorem any_perm_eq {α : Type} {l₁ l₂ : List α} (h : l₁.Perm l₂) (f : α → Bool) :
    l₁.any f = l₂.any f := by
  cases e : l₂.any f with
  | false =>
    rw [List.any_eq_false] at e ⊢
    intro x hx
    exact e x (h.mem_iff.mp hx)
  | true =>
    rw [List.any_eq_true] at e ⊢
    obtain ⟨x, hx, hfx⟩ := e
    exact ⟨x, h.mem_iff.mpr hx, hfx⟩

/-- C1: for every classified target and all strictness levels, if the target
matches the out-of-scope rule set then `parseScopes` returns
`(isInsideScope, isUnsure) = (false, false)` — Excluded — regardless of the
in-scope rule set (which the code only consults when the out-of-scope match
fails), the in-scope level, and the include-unsure flag. -/
theorem parseScopes_excluded_of_outOfScope
    (inS noS : List GoValue) (t : GoValue) (inL noL : Nat) (iu : Bool)
    (h : isOutOfScope noS t noL = true) :
    parseScopes inS noS t inL noL iu = (false, false) := by
  unfold parseScopes
  simp [h]

/-- Witness for C1, the spec's own example: with in-scope `example.com` and
out-of-scope `internal.example.com`, the target `internal.example.com` at
strictness 1 matches the in-scope set (by suffix) and yet is Excluded. -/
theorem parseScopes_excluded_of_outOfScope_witness :
    isInscope [GoValue.hoststr "example.com"]
      (GoValue.url ⟨"https", "", "internal.example.com", ""⟩) 1 = true ∧
    parseScopes [GoValue.hoststr "example.com"]
      [GoValue.hoststr "internal.example.com"]
      (GoValue.url ⟨"https", "", "internal.example.com", ""⟩) 1 1 false =
      (false, false) :=
  ⟨by decide,
   parseScopes_excluded_of_outOfScope _ _ _ 1 1 false (by decide)⟩

/-- C10: `parseScopes` never reports not-inside-scope together with unsure:
its result is always one of `(false, false)`, `(true, false)` or
`(true, true)`; with the include-unsure flag off the unsure flag is always
`false`; and whenever the unsure flag is set the inside-scope flag is set. -/
theorem parseScopes_outcomes
    (inS noS : List GoValue) (t : GoValue) (inL noL : Nat) (iu : Bool) :
    (parseScopes inS noS t inL noL iu = (false, false) ∨
     parseScopes inS noS t inL noL iu = (true, false) ∨
     parseScopes inS noS t inL noL iu = (true, true)) ∧
    (iu = false → (parseScopes inS noS t inL noL iu).2 = false) ∧
    ((parseScopes inS noS t inL noL iu).2 = true →
      (parseScopes inS noS t inL noL iu).1 = true) := by
  cases h1 : isOutOfScope noS t noL <;>
    cases h2 : isInscope inS t inL <;>
      cases iu <;> simp [parseScopes, h1, h2]

/-- Witness for C10 at a concrete input with the include-unsure flag off. -/
theorem parseScopes_outcomes_witness :
    (parseScopes [] [] (GoValue.ip [1, 2, 3, 4]) 1 1 false).2 = false :=
  (parseScopes_outcomes [] [] (GoValue.ip [1, 2, 3, 4]) 1 1 false).2.1 rfl

/-- C9: the matcher is invariant under permutation of the rule set, for
every target and strictness level, on both the URL path (`isInscope`) and
the IP path (`isInscopeIP`): the early-exit OR loops decide membership
only. -/
theorem matcher_perm_invariant {s₁ s₂ : List GoValue} (h : s₁.Perm s₂) :
    (∀ (t : GoValue) (level : Nat), isInscope s₁ t level = isInscope s₂ t level) ∧
    (∀ (tgt : List Nat) (level : Nat),
      isInscopeIP tgt s₁ level = isInscopeIP tgt s₂ level) := by
  have hip : ∀ (tgt : List Nat) (level : Nat),
      isInscopeIP tgt s₁ level = isInscopeIP tgt s₂ level := by
    intro tgt level
    unfold isInscopeIP
    split
    · exact any_perm_eq h _
    · exact any_perm_eq h _
  refine ⟨?_, hip⟩
  intro t level
  cases t with
  | ip b => exact hip b level
  | urlWithIPHost raw iph => exact hip iph level
  | url u => exact any_perm_eq h _
  | ipnet b m => rfl
  | nmap o => rfl
  | hoststr s => rfl
  | wildcard p => rfl
  | regex m => rfl

/-- Witness for C9: swapping two host rules leaves the decision unchanged
(and the decision is `true` on this input). -/
theorem matcher_perm_invariant_witness :
    (isInscope [GoValue.hoststr "a.com", GoValue.hoststr "b.com"]
        (GoValue.url ⟨"https", "", "b.com", ""⟩) 2 =
      isInscope [GoValue.hoststr "b.com", GoValue.hoststr "a.com"]
        (GoValue.url ⟨"https", "", "b.com", ""⟩) 2) ∧
    isInscope [GoValue.hoststr "a.com", GoValue.hoststr "b.com"]
      (GoValue.url ⟨"https", "", "b.com", ""⟩) 2 = true :=
  ⟨(matcher_perm_invariant
      (List.Perm.swap (GoValue.hoststr "b.com") (GoValue.hoststr "a.com") [])).1
      (GoValue.url ⟨"https", "", "b.com", ""⟩) 2,
   by decide⟩

/-- C2: for every IP-address target — a bare IP (`*net.IP`) or the numeric
host of a URL (`*URLWithIPAddressHost`), both of which dispatch to
`isInscopeIP` — matching at strictness 3 holds iff some `Address` rule is
`net.IP.Equal` to the target, with `Range` and `OctetRange` rules ignored
entirely; at strictness 1 or 2 matching holds iff some `Address` rule equals
it, or some `Range` (CIDR) rule contains it, or the target has a 4-byte
(IPv4) form — so never for a plain IPv6 target — and some `OctetRange` rule
contains each of its four octets in the corresponding allowed-value list. -/
theorem ip_matching_characterization (tgt : List Nat) (scopes : List GoValue) :
    (∀ (raw : String) (level : Nat),
      isInscope scopes (GoValue.ip tgt) level = isInscopeIP tgt scopes level ∧
      isInscope scopes (GoValue.urlWithIPHost raw tgt) level =
        isInscopeIP tgt scopes level) ∧
    (isInscopeIP tgt scopes 3 = true ↔
      ∃ a, GoValue.ip a ∈ scopes ∧ ipEqual a tgt = true) ∧
    (∀ level : Nat, level = 1 ∨ level = 2 →
      (isInscopeIP tgt scopes level = true ↔
        ((∃ a, GoValue.ip a ∈ scopes ∧ ipEqual a tgt = true) ∨
         (∃ b m, GoValue.ipnet b m ∈ scopes ∧ ipnetContains b m tgt = true) ∨
         (∃ o ip4, GoValue.nmap o ∈ scopes ∧ ipTo4 tgt = some ip4 ∧
           nmapOctetsMatch o ip4 = true)))) := by
  refine ⟨fun raw level => ⟨rfl, rfl⟩, ?_, ?_⟩
  · unfold isInscopeIP
    rw [if_pos rfl, List.any_eq_true]
    constructor
    · rintro ⟨x, hx, hpx⟩
      cases x with
      | ip a => exact ⟨a, hx, hpx⟩
      | ipnet b m => exact Bool.noConfusion hpx
      | nmap o => exact Bool.noConfusion hpx
      | hoststr s => exact Bool.noConfusion hpx
      | wildcard p => exact Bool.noConfusion hpx
      | regex m => exact Bool.noConfusion hpx
      | url u => exact Bool.noConfusion hpx
      | urlWithIPHost r i => exact Bool.noConfusion hpx
    · rintro ⟨a, ha, he⟩
      exact ⟨GoValue.ip a, ha, he⟩
  · rintro level hlev
    have hne : level ≠ 3 := by rcases hlev with h | h <;> subst h <;> decide
    unfold isInscopeIP
    rw [if_neg hne, List.any_eq_true]
    constructor
    · rintro ⟨x, hx, hpx⟩
      cases x with
      | ip a => exact Or.inl ⟨a, hx, hpx⟩
      | ipnet b m => exact Or.inr (Or.inl ⟨b, m, hx, hpx⟩)
      | nmap o =>
        have hpx2 : (match ipTo4 tgt with
            | none => false
            | some ip4 => nmapOctetsMatch o ip4) = true := hpx
        cases h4 : ipTo4 tgt with
        | none => rw [h4] at hpx2; exact Bool.noConfusion hpx2
        | some ip4 =>
          rw [h4] at hpx2
          exact Or.inr (Or.inr ⟨o, ip4, hx, rfl, hpx2⟩)
      | hoststr s => exact Bool.noConfusion hpx
      | wildcard p => exact Bool.noConfusion hpx
      | regex m => exact Bool.noConfusion hpx
      | url u => exact Bool.noConfusion hpx
      | urlWithIPHost r i => exact Bool.noConfusion hpx
    · rintro (⟨a, ha, he⟩ | ⟨b, m, hm, hc⟩ | ⟨o, ip4, ho, h4, hall⟩)
      · exact ⟨GoValue.ip a, ha, he⟩
      · exact ⟨GoValue.ipnet b m, hm, hc⟩
      · refine ⟨GoValue.nmap o, ho, ?_⟩
        simp only [ipScopeMatchLow, h4]
        exact hall

/-- Witness for C2: the target `10.0.0.5` against the single rule
`10.0.0.0/24` matches at strictness 1 and does not match at strictness 3. -/
theorem ip_matching_characterization_witness :
    isInscopeIP [10, 0, 0, 5]
      [GoValue.ipnet [10, 0, 0, 0] [255, 255, 255, 0]] 1 = true ∧
    isInscopeIP [10, 0, 0, 5]
      [GoValue.ipnet [10, 0, 0, 0] [255, 255, 255, 0]] 3 = false :=
  ⟨((ip_matching_characterization [10, 0, 0, 5]
      [GoValue.ipnet [10, 0, 0, 0] [255, 255, 255, 0]]).2.2 1
      (Or.inl rfl)).mpr
      (Or.inr (Or.inl ⟨[10, 0, 0, 0], [255, 255, 255, 0],
        List.Mem.head _, by decide⟩)),
   by decide⟩

/-- C3: for every URL target and every `ExactHost` (Go `string`) rule, at
strictness 1 the rule matches iff the rule's host string is a suffix of the
target's port-stripped host, and at strictness 2 or 3 it matches iff the
port-stripped host equals the rule's host string; a singleton rule set
through `isInscope` behaves the same way. -/
theorem exactHost_match_characterization (s : String) (u : GoURL) :
    (urlScopeMatch u 1 (GoValue.hoststr s) = true ↔
      s.toList <:+ (removePortFromHost u).toList) ∧
    (∀ level : Nat, level = 2 ∨ level = 3 →
      (urlScopeMatch u level (GoValue.hoststr s) = true ↔
        removePortFromHost u = s)) ∧
    (∀ level : Nat, isInscope [GoValue.hoststr s] (GoValue.url u) level =
      urlScopeMatch u level (GoValue.hoststr s)) := by
  refine ⟨?_, ?_, ?_⟩
  · simp only [urlScopeMatch, if_pos rfl, goHasSuffix]
    exact List.isSuffixOf_iff_suffix
  · rintro level (h | h) <;> subst h <;> simp [urlScopeMatch]
  · intro level
    simp [isInscope, List.any]

/-- Witness for C3, the spec's own example: rule `example.com` matches the
target host `a.b.example.com` at strictness 1 and not at strictness 2 or 3. -/
theorem exactHost_match_characterization_witness :
    isInscope [GoValue.hoststr "example.com"]
      (GoValue.url ⟨"https", "", "a.b.example.com", ""⟩) 1 = true ∧
    isInscope [GoValue.hoststr "example.com"]
      (GoValue.url ⟨"https", "", "a.b.example.com", ""⟩) 2 = false ∧
    isInscope [GoValue.hoststr "example.com"]
      (GoValue.url ⟨"https", "", "a.b.example.com", ""⟩) 3 = false := by
  have h := exactHost_match_characterization "example.com"
    ⟨"https", "", "a.b.example.com", ""⟩
  refine ⟨?_, by decide, by decide⟩
  rw [h.2.2 1]
  exact h.1.mpr (by decide)

/-- The unanchored search succeeds exactly when the pattern matches starting
at some position of the string (with an arbitrary remainder allowed after
the match): the substring semantics of `regexp.MatchString`. -/
theorem globSearch_eq_true_iff (pat : List WTok) (s : List Char) :
    globSearch pat s = true ↔ ∃ i, globHere pat (s.drop i) = true := by
  induction s with
  | nil =>
    simp only [globSearch, List.drop_nil]
    exact ⟨fun h => ⟨0, h⟩, fun ⟨_, h⟩ => h⟩
  | cons x tail ih =>
    simp only [globSearch, Bool.or_eq_true, ih]
    constructor
    · rintro (h | ⟨i, h⟩)
      · exact ⟨0, h⟩
      · exact ⟨i + 1, h⟩
    · rintro ⟨i, h⟩
      cases i with
      | zero => exact Or.inl h
      | succ j => exact Or.inr ⟨j, h⟩

/-- C4: for every wildcard rule (compiled with dots escaped and each `*`
turned into match-any-sequence) and every URL target, at strictness 1 or 2
the rule matches exactly when the unanchored substring search of the
compiled pattern succeeds on the target's port-stripped host, and at
strictness 3 the rule never matches.  The two hypotheses delimit the inputs
on which the token model coincides with Go's `regexp` semantics: the rule
text contains no regex metacharacter besides `*` (and `.`, which the source
escapes), and the searched host contains no newline (which Go's `.` does not
match). -/
theorem wildcard_match_characterization (line : String) (u : GoURL)
    (level : Nat) (hsafe : wildcardSafe line = true)
    (hnl : '\n' ∉ (removePortFromHost u).toList) :
    ((level = 1 ∨ level = 2) →
      urlScopeMatch u level (GoValue.wildcard (compileWildcard line)) =
        globSearch (compileWildcard line) (removePortFromHost u).toList) ∧
    (urlScopeMatch u 3 (GoValue.wildcard (compileWildcard line)) = false) ∧
    (globSearch (compileWildcard line) (removePortFromHost u).toList = true ↔
      ∃ i, globHere (compileWildcard line)
        ((removePortFromHost u).toList.drop i) = true) ∧
    (∀ l2 : Nat,
      isInscope [GoValue.wildcard (compileWildcard line)] (GoValue.url u) l2 =
        urlScopeMatch u l2 (GoValue.wildcard (compileWildcard line))) := by
  refine ⟨?_, ?_, globSearch_eq_true_iff _ _, ?_⟩
  · rintro (h | h) <;> subst h <;> simp [urlScopeMatch]
  · simp [urlScopeMatch]
  · intro l2
    simp [isInscope, List.any]

/-- Witness for C4: the wildcard rule `*.example.com` at strictness 1
matches the host `a.example.com.evil.net` (the unanchored-substring sharp
edge) and never matches at strictness 3. -/
theorem wildcard_match_characterization_witness :
    isInscope [GoValue.wildcard (compileWildcard "*.example.com")]
      (GoValue.url ⟨"https", "", "a.example.com.evil.net", ""⟩) 1 = true ∧
    urlScopeMatch ⟨"https", "", "a.example.com.evil.net", ""⟩ 3
      (GoValue.wildcard (compileWildcard "*.example.com")) = false := by
  have h := wildcard_match_characterization "*.example.com"
    ⟨"https", "", "a.example.com.evil.net", ""⟩ 1 (by decide) (by decide)
  refine ⟨?_, h.2.1⟩
  rw [h.2.2.2 1, h.1 (Or.inl rfl)]
  decide

/-- Behaviour of the Go standard library on the concrete strings used by the
C5 counterexample and the C6 evaluation: `url.Parse "example.com"` succeeds
with an empty host (the text is all path), so `parseLine` retries with the
`https://` prefix, and `url.Parse "https://example.com"` yields scheme
`https`, host `example.com` and empty path; `net.ParseIP` and
`net.ParseCIDR` fail on both strings, and no regex is compiled on these
paths. -/
def demoLib : StdlibOracles where
  regexpCompile := fun _ => none
  urlParse := fun s =>
    if s = "example.com" then some ⟨"", "", "", "example.com"⟩
    else if s = "https://example.com" then some ⟨"https", "", "example.com", ""⟩
    else none
  parseCIDR := fun _ => none
  parseIP := fun _ => none

/-- The `MatchString` function of the compiled freeform rule
`^example\.com$`: it matches exactly the text `example.com`. -/
def anchoredExampleCom : String → Bool := fun s => s == "example.com"

/-- Counterexample to C5 as stated: the target line `example.com` classifies
(per the documented behaviour of `url.Parse`, recorded in `demoLib`) into a
URL value with scheme `https` added by the retry; the freeform pattern
`^example\.com$` matches the full original input text `example.com`, yet the
matcher rejects the target at every level — the code matches the pattern
against the re-serialised URL `https://example.com`, not against the
original input, which the classified value no longer carries. -/
theorem freeform_original_text_cex :
    parseLine demoLib "example.com" false =
      GoResult.ok (GoValue.url ⟨"https", "", "example.com", ""⟩) ∧
    anchoredExampleCom "example.com" = true ∧
    isInscope [GoValue.regex anchoredExampleCom]
      (GoValue.url ⟨"https", "", "example.com", ""⟩) 1 = false ∧
    urlString ⟨"https", "", "example.com", ""⟩ = "https://example.com" :=
  ⟨rfl, by decide, by decide, by decide⟩

/-- C5 (amended): a freeform (`^...$`) rule participates at every strictness
level, and it matches exactly when its compiled pattern matches the
serialised text of the target's parsed URL (`url.URL.String()`, which
includes scheme and path — the scheme possibly being the `https://` added
during classification). -/
theorem freeform_match_on_rendered_url :
    (∀ (f : String → Bool) (u : GoURL) (level : Nat),
      urlScopeMatch u level (GoValue.regex f) = f (urlString u)) ∧
    (∀ (f : String → Bool) (u : GoURL) (level : Nat) (scopes : List GoValue),
      GoValue.regex f ∈ scopes → f (urlString u) = true →
      isInscope scopes (GoValue.url u) level = true) := by
  refine ⟨fun f u level => rfl, ?_⟩
  intro f u level scopes hmem hf
  unfold isInscope
  rw [List.any_eq_true]
  exact ⟨GoValue.regex f, hmem, hf⟩

/-- Witness for amended C5: a freeform rule matching the full URL text,
scheme and path included, fires at strictness 3. -/
theorem freeform_match_on_rendered_url_witness :
    isInscope [GoValue.regex (fun s => s == "https://example.com/x")]
      (GoValue.url ⟨"https", "", "example.com", "/x"⟩) 3 = true :=
  freeform_match_on_rendered_url.2 (fun s => s == "https://example.com/x")
    ⟨"https", "", "example.com", "/x"⟩ 3 _ (List.Mem.head _) (by decide)

/-- In rule mode the final URL step never yields a `*url.URL` value. -/
theorem parseLineFinish_scope_no_url (lib : StdlibOracles) (line : String)
    (v : GoURL) (u : GoURL) :
    parseLineFinish lib line true v ≠ GoResult.ok (GoValue.url u) := by
  intro h
  unfold parseLineFinish at h
  rw [if_neg (by decide : ¬ (!true) = true)] at h
  split at h
  · simp at h
  · exact GoResult.noConfusion h

/-- In rule mode the URL tail never yields a `*url.URL` value. -/
theorem parseLineURLTail_scope_no_url (lib : StdlibOracles) (line : String)
    (u : GoURL) :
    parseLineURLTail lib line true ≠ GoResult.ok (GoValue.url u) := by
  intro h
  unfold parseLineURLTail at h
  split at h
  · split at h
    · exact GoResult.noConfusion h
    · split at h
      · exact GoResult.noConfusion h
      · split at h
        · exact parseLineFinish_scope_no_url lib line _ u h
        · exact GoResult.noConfusion h
  · split at h
    · exact parseLineFinish_scope_no_url lib line _ u h
    · exact GoResult.noConfusion h

/-- In rule mode (`isScope = true`) the classifier never produces a
`*url.URL` value, whatever the library collaborators do: the possible
successes are a compiled regex, a wildcard pattern, an octet range, a CIDR
network, a plain IP, or the port-stripped host string of a URL-shaped
rule. -/
theorem parseLine_scope_no_url (lib : StdlibOracles) (line : String)
    (u : GoURL) :
    parseLine lib line true ≠ GoResult.ok (GoValue.url u) := by
  intro h
  unfold parseLine at h
  rw [if_pos rfl] at h
  by_cases c1 : (goHasStart line "^" && goHasSuffix line "$") = true
  · rw [if_pos c1] at h
    cases hc : lib.regexpCompile line with
    | none => rw [hc] at h; exact GoResult.noConfusion h
    | some m => rw [hc] at h; simp at h
  · rw [if_neg c1] at h
    by_cases c2 : line.toList.contains '*' = true
    · rw [if_pos c2] at h
      cases hc : lib.regexpCompile (wildcardRegexText line) with
      | none => rw [hc] at h; exact GoResult.noConfusion h
      | some m => rw [hc] at h; simp at h
    · rw [if_neg c2] at h
      by_cases c3 : isNmapIPRange line = true
      · rw [if_pos c3] at h
        cases hn : parseNmapIPRange line with
        | err => rw [hn] at h; exact GoResult.noConfusion h
        | hang => rw [hn] at h; exact GoResult.noConfusion h
        | ok o => rw [hn] at h; simp at h
      · rw [if_neg c3] at h
        cases hc : lib.parseCIDR line with
        | some bm =>
          obtain ⟨b, m⟩ := bm
          rw [hc] at h
          simp at h
        | none =>
          rw [hc] at h
          unfold parseLineShared at h
          cases hip : lib.parseIP line with
          | some ipb => rw [hip] at h; simp at h
          | none => rw [hip] at h; exact parseLineURLTail_scope_no_url lib line u h

/-- Behaviour of the Go standard library on the raw scope text
`com.my.businness.gatewayportal` (the reversed-package-name example given in
the source's own comment): no regex is compiled, `net.ParseCIDR` and
`net.ParseIP` fail, the first `url.Parse` yields no host (all path), and the
`https://`-prefixed retry yields that text as the host. -/
def demoLibPkg : StdlibOracles where
  regexpCompile := fun _ => none
  urlParse := fun s =>
    if s = "com.my.businness.gatewayportal" then
      some ⟨"", "", "", "com.my.businness.gatewayportal"⟩
    else if s = "https://com.my.businness.gatewayportal" then
      some ⟨"https", "", "com.my.businness.gatewayportal", ""⟩
    else none
  parseCIDR := fun _ => none
  parseIP := fun _ => none

/-- C7 (code behaviour): with the misconfiguration detector enabled
(`privateTLDs = false`), `isAndroidPackageName` never flags any entry — for
every library behaviour and every rule string it returns `false` (or hangs
inside the octet-range parser); in particular the reversed-package-name
scope `com.my.businness.gatewayportal`, whose effective TLD is not publicly
registered (`psl` returns `false`), is not flagged.  The flagging branch is
dead because it requires the rule parse to produce a `*url.URL` value, which
`parseLine` in rule mode never returns. -/
theorem detector_never_flags :
    (∀ (lib : StdlibOracles) (psl : String → Bool) (line : String),
      isAndroidPackageName lib psl line false = GoResult.ok false ∨
      isAndroidPackageName lib psl line false = GoResult.hang) ∧
    isAndroidPackageName demoLibPkg (fun _ => false)
      "com.my.businness.gatewayportal" false = GoResult.ok false := by
  constructor
  · intro lib psl line
    cases hp : parseLine lib line true with
    | hang => right; simp [isAndroidPackageName, hp]
    | err => left; simp [isAndroidPackageName, hp]
    | ok v =>
      cases v with
      | ip b => left; simp [isAndroidPackageName, hp]
      | ipnet b m => left; simp [isAndroidPackageName, hp]
      | nmap o => left; simp [isAndroidPackageName, hp]
      | hoststr s => left; simp [isAndroidPackageName, hp]
      | wildcard p => left; simp [isAndroidPackageName, hp]
      | regex m => left; simp [isAndroidPackageName, hp]
      | url u2 => exact absurd hp (parseLine_scope_no_url lib line u2)
      | urlWithIPHost r iph => left; simp [isAndroidPackageName, hp]
  · decide

/-- C6 (code behaviour): with the private-TLDs flag set — documented as
disabling the misconfiguration detector — `isAndroidPackageName` instead
returns `true` for every rule string under every library behaviour, so
`getCompanyScopes` drops every entry and fails with an empty in-scope set
even for a perfectly ordinary `web_application` rule such as
`example.com`. -/
theorem privateTLDs_flag_rejects_all :
    (∀ (lib : StdlibOracles) (psl : String → Bool) (line : String),
      isAndroidPackageName lib psl line true = GoResult.ok true) ∧
    getCompanyScopes demoLib (fun _ => true)
      [⟨"example.com", "web_application"⟩] [] true = GoResult.err :=
  ⟨fun _ _ _ => rfl, by decide⟩

set_option maxRecDepth 8000 in
/-- C8 (code behaviour): any octet-range segment whose upper bound is 255 —
including the lone `-` (rewritten to `0-255` by the source) and an omitted
upper bound — makes the `uint8` counting loop spin forever, so parsing the
spec's own example `10.0.0-255.5,10` never succeeds; with an upper bound
of 254 the parser terminates and yields the enumerated value lists. -/
theorem parseNmapIPRange_hangs_on_255 :
    (∀ low : Nat, octetLoop low 255 = GoResult.hang) ∧
    parseNmapIPRange "10.0.0-255.5,10" = GoResult.hang ∧
    parseNmapOctet "-".toList = GoResult.hang ∧
    parseNmapOctet "10-".toList = GoResult.hang ∧
    parseNmapIPRange "10.0.0-254.5,10" =
      GoResult.ok [[10], [0], List.range' 0 255, [5, 10]] :=
  ⟨fun _ => rfl, by decide, by decide, by decide, by decide⟩

end HackerScoper
